import Mathlib

/-!
Shallow embedding of the settlement core of the wiseramp backend:
the Postgres-backed order service (`PostgresTransactionService`), the
hypersync scanner / transfer matching engine (`HypersyncWorker`), the
settlement confirmation service (`TransactionConfirmationService`) and
the sweep retry queue (`SweeperQueueService`).

Conventions of the embedding:
- the relational store is a `List Order` (resp. `List QueueEntry`);
  a drizzle `update ... where eq(id)` is a `List.map` touching the
  matching rows, and its `!!result` return value is `List.any`;
- JavaScript `Date` values are `Nat` timestamps (milliseconds);
- `bigint` wei amounts are `Nat` (the relevant values are non-negative
  `uint256` transfer amounts);
- a thrown JavaScript exception is `Option.none` / an explicit error
  value, a caught one is handled where the source catches it;
- external collaborators (hypersync client query results, the wallet
  transfer executor, balance verification) are passed in as explicit
  result values, mirroring §6 of the spec (external interfaces).
-/

namespace Wiseramp

/-! ### Decimal strings and `ethers.parseUnits` / `ethers.parseEther`

`sourceAmount` is stored as a decimal string; `ethers.parseUnits s d`
parses it and scales by `10^d` (exact, no rounding; more fractional
digits than `d` or a malformed string throw). `parseEther = parseUnits · 18`. -/

/-- Value of a non-empty list of decimal digit characters; `none` if the
list is empty or contains a non-digit (a malformed amount makes
`ethers.parseUnits` throw). -/
def digitsVal (cs : List Char) : Option Nat :=
  if cs ≠ [] ∧ cs.all Char.isDigit then
    some (cs.foldl (fun n c => n * 10 + (c.toNat - 48)) 0)
  else none

/-- Split a character list at the first dot, if any. -/
def splitDot : List Char → List Char × Option (List Char)
  | [] => ([], none)
  | c :: rest =>
    if c == '.' then ([], some rest)
    else
      let (i, f) := splitDot rest
      (c :: i, f)

/-- Model of `ethers.parseUnits(s, decimals)` on non-negative decimal
strings: integer part times `10^decimals` plus the fractional part
scaled to `decimals` digits; `none` models the throw on malformed input
or on more fractional digits than `decimals`. -/
def parseUnits (s : String) (decimals : Nat) : Option Nat :=
  let (ip, fp) := splitDot s.toList
  match fp with
  | none => (digitsVal ip).map (· * 10 ^ decimals)
  | some f =>
    match digitsVal ip, digitsVal f with
    | some iv, some fv =>
      if f.length ≤ decimals then
        some (iv * 10 ^ decimals + fv * 10 ^ (decimals - f.length))
      else none
    | _, _ => none

/-- Model of `ethers.parseEther`: `parseUnits` at 18 decimals. -/
def parseEther (s : String) : Option Nat :=
  parseUnits s 18

/-! ### Address validation (`HypersyncWorker.validateAndNormalizeAddress`) -/

/-- ASCII lower-casing of one character, as JavaScript
`String.prototype.toLowerCase` acts on the ASCII addresses handled
here. -/
def toLowerChar (c : Char) : Char :=
  if 65 ≤ c.toNat ∧ c.toNat ≤ 90 then Char.ofNat (c.toNat + 32) else c

/-- One of `[0-9a-f]` (the source lower-cases before testing the
case-insensitive regex, so lowercase hex is what is matched). -/
def isLowerHexDigit (c : Char) : Bool :=
  (48 ≤ c.toNat && c.toNat ≤ 57) || (97 ≤ c.toNat && c.toNat ≤ 102)

/-- `HypersyncWorker.validateAndNormalizeAddress`: lower-case, strip a
leading `0x`, require exactly 40 hex characters, return with the `0x`
prefix restored; invalid input yields `none` (the source returns
`null`). -/
def validateAndNormalizeAddress (s : String) : Option String :=
  let lower := s.toList.map toLowerChar
  let clean :=
    match lower with
    | '0' :: 'x' :: rest => rest
    | l => l
  if clean.length == 40 && clean.all isLowerHexDigit then
    some (String.mk ('0' :: 'x' :: clean))
  else none

/-! ### The Order row (`transactions` table of `db/schema.ts`)

Fields not read or written by the embedded operations are omitted;
nullable columns are `Option`. -/

structure Order where
  id : Nat
  transactionId : String
  userId : Nat
  transactionType : String
  status : String
  cryptoStatus : Option String
  fiatStatus : Option String
  internalTransferStatus : Option String
  sourceChain : Option String
  sourceAddress : Option String
  sourceCurrency : String
  sourceAmount : String
  destinationCurrency : String
  destinationChain : Option String
  destinationAddress : Option String
  sourceTransactionHash : Option String
  destinationTransactionHash : Option String
  sourceFee : Option String
  adminNotes : Option String
  sweepAdminNotes : Option String
  createdAt : Nat
  updatedAt : Nat
  expiredAt : Option Nat
  cryptoReceivedAt : Option Nat
  completedAt : Option Nat
  deriving DecidableEq

/-! ### Order service queries (`PostgresTransactionService`) -/

/-- The where-clause of `getPendingTransactionsByChainAndAddress`:
`eq(sourceChain, chain)`, `eq(sourceAddress, address)` (exact SQL string
equality), `eq(cryptoStatus, "waiting_for_crypto")`,
`inArray(status, ["pending", "processing"])`, `gte(expiredAt, now)`
(a NULL `expiredAt` fails the comparison in SQL). -/
def isPendingFor (chain address : String) (now : Nat) (o : Order) : Bool :=
  o.sourceChain == some chain &&
  o.sourceAddress == some address &&
  o.cryptoStatus == some "waiting_for_crypto" &&
  (o.status == "pending" || o.status == "processing") &&
  (match o.expiredAt with
   | some t => now ≤ t
   | none => false)

/-- Comparison backing `orderBy(transactions.createdAt)`. -/
def createdLe (a b : Order) : Prop :=
  a.createdAt ≤ b.createdAt

instance : DecidableRel createdLe := fun a b => Nat.decLe a.createdAt b.createdAt

instance : IsTotal Order createdLe := ⟨fun a b => Nat.le_total a.createdAt b.createdAt⟩

instance : IsTrans Order createdLe := ⟨fun _ _ _ => Nat.le_trans⟩

/-- `orderBy(transactions.createdAt)` — ascending creation time. -/
def sortByCreatedAt (l : List Order) : List Order :=
  List.insertionSort createdLe l

/-- `PostgresTransactionService.getPendingTransactionsByChainAndAddress`:
the filtered rows, oldest first. -/
def getPendingTransactionsByChainAndAddress
    (db : List Order) (chain address : String) (now : Nat) : List Order :=
  sortByCreatedAt (db.filter (isPendingFor chain address now))

/-- The row mutation performed by
`PostgresTransactionService.updateCryptoStatus`: set `cryptoStatus` and
`updatedAt`; when the new status is `crypto_confirmed`, also stamp
`cryptoReceivedAt`, store the transfer hash when one was passed, and
derive the overall status from `transactionType`. -/
def cryptoStatusRow (o : Order) (status : String) (txHash : Option String)
    (now : Nat) : Order :=
  if status == "crypto_confirmed" then
    let o1 := { o with cryptoStatus := some status, updatedAt := now,
                       cryptoReceivedAt := some now }
    let o2 :=
      match txHash with
      | some h => { o1 with sourceTransactionHash := some h }
      | none => o1
    match o.transactionType with
    | "crypto_to_fiat" =>
      { o2 with status := "processing_payout", fiatStatus := some "processing_payout" }
    | "crypto_to_crypto" => { o2 with status := "processing" }
    | "supply_stable" => { o2 with status := "processing" }
    | "fiat_to_crypto" => { o2 with status := "processing" }
    | _ => o2
  else { o with cryptoStatus := some status, updatedAt := now }

/-- `PostgresTransactionService.updateCryptoStatus`: the update is keyed
only on `eq(transactions.id, id)` — it is NOT conditioned on the row's
current `cryptoStatus`; the returned boolean is whether a row with that
id exists. -/
def updateCryptoStatus (db : List Order) (id : Nat) (status : String)
    (txHash : Option String) (now : Nat) : List Order × Bool :=
  (db.map (fun o => if o.id == id then cryptoStatusRow o status txHash now else o),
   db.any (fun o => o.id == id))

/-! ### Expiry (`findExpiredTransactions` / `expireOldTransactions`) -/

/-- The status list of `findExpiredTransactions`'s `inArray` filter. -/
def expirableStatuses : List String :=
  ["waiting_for_crypto", "waiting_for_fiat", "crypto_pending", "fiat_pending", "pending"]

/-- The where-clause of `findExpiredTransactions`: status in the fixed
five-element list and `lte(expiredAt, now)` (NULL fails). -/
def isExpiredRow (now : Nat) (o : Order) : Bool :=
  expirableStatuses.contains o.status &&
  (match o.expiredAt with
   | some t => t ≤ now
   | none => false)

/-- `PostgresTransactionService.findExpiredTransactions`. -/
def findExpiredTransactions (db : List Order) (now : Nat) : List Order :=
  db.filter (isExpiredRow now)

/-- The bulk update applied by `expireOldTransactions` to each found
row. -/
def expireRow (o : Order) (now : Nat) : Order :=
  { o with status := "expired", cryptoStatus := some "expired",
           fiatStatus := some "expired", expiredAt := some now, updatedAt := now }

/-- The de-duplication in `expireOldTransactions`
(`filter((addr, index, self) => index === self.findIndex(...))`):
keep the first occurrence of each (address, chain) pair. -/
def dedupKeepFirst (seen : List (String × String)) :
    List (String × String) → List (String × String)
  | [] => []
  | p :: rest =>
    if seen.contains p then dedupKeepFirst seen rest
    else p :: dedupKeepFirst (p :: seen) rest

/-- `PostgresTransactionService.expireOldTransactions`: find the rows
matching `findExpiredTransactions`, bulk-set status/cryptoStatus/
fiatStatus to `expired` on their ids, and return the count and the
distinct (sourceAddress, sourceChain) pairs of the found rows that have
both fields. -/
def expireOldTransactions (db : List Order) (now : Nat) :
    List Order × Nat × List (String × String) :=
  let expired := findExpiredTransactions db now
  if expired.isEmpty then (db, 0, [])
  else
    let ids := expired.map (·.id)
    let db2 := db.map (fun o => if ids.contains o.id then expireRow o now else o)
    let pairs := dedupKeepFirst []
      (expired.filterMap (fun o =>
        match o.sourceAddress, o.sourceChain with
        | some a, some c => some (a, c)
        | _, _ => none))
    (db2, expired.length, pairs)

/-! ### Watch registry (`HypersyncWorker.watchedAddresses`)

The in-memory watch state is, per chain, the list of watched addresses
(token sets play no role in the removal operations embedded here). -/

/-- Per-chain watched address lists: `(chain, addresses)` pairs. -/
def WatchState := List (String × List String)

/-- The addresses watched on a chain (empty when the chain is absent). -/
def watchedOn (ws : WatchState) (chain : String) : List String :=
  match List.find? (fun p => p.1 == chain) ws with
  | some p => p.2
  | none => []

/-- `HypersyncWorker.removeAddress`: fail when the chain is not
configured or the address is invalid; otherwise delete the normalized
address from the chain's map and report whether it was present. -/
def removeAddress (chains : List String) (ws : WatchState) (address chain : String) :
    WatchState × Bool :=
  if chains.contains chain then
    match validateAndNormalizeAddress address with
    | none => (ws, false)
    | some norm =>
      (ws.map (fun p =>
        if p.1 == chain then (p.1, p.2.filter (fun a => ¬ a == norm)) else p),
       (watchedOn ws chain).contains norm)
  else (ws, false)

/-- `HypersyncWorker.removeAddressIfNoActiveTransactions`: normalize the
address (invalid input fails closed), query the pending orders at
(chain, normalized address), and only call `removeAddress` when none
remain; otherwise keep the address watched and return false. -/
def removeAddressIfNoActiveTransactions (chains : List String) (ws : WatchState)
    (db : List Order) (now : Nat) (address chain : String) : WatchState × Bool :=
  match validateAndNormalizeAddress address with
  | none => (ws, false)
  | some norm =>
    if (getPendingTransactionsByChainAndAddress db chain norm now).isEmpty then
      removeAddress chains ws norm chain
    else (ws, false)

/-! ### Transfer matching (`HypersyncWorker.processTokenTransfer`,
`src/worker/hypersync-worker.ts`)

The decoded ERC-20 Transfer log carries the recipient and a `bigint`
amount. The source converts each candidate's declared `sourceAmount`
with `ethers.parseEther` — 18 decimals, for token transfers too — and
takes the first candidate whose converted amount is at most the amount
received, falling back to `pendingTransactions[0]` (oldest). -/

/-- A decoded ERC-20 Transfer log as consumed by
`processTokenTransfer`: the emitting token contract, the decoded `to`
address, the decoded amount, and the (possibly absent) `log.hash` field
passed on to `updateCryptoStatus`. -/
structure TokenLog where
  address : String
  toAddr : String
  amount : Nat
  hash : Option String
  deriving DecidableEq

/-- The matching loop of `processTokenTransfer`: first candidate whose
`parseEther(sourceAmount)` is `≤` the received amount. `none` models a
thrown parse error; `some none` means the loop finished with no match. -/
def findAmountMatch (amount : Nat) : List Order → Option (Option Order)
  | [] => some none
  | t :: rest =>
    match parseEther t.sourceAmount with
    | none => none
    | some w => if w ≤ amount then some (some t) else findAmountMatch amount rest

/-- Result of one `processTokenTransfer` run: the updated order store,
the matched order (pre-update row), the transaction id handed to
`TransactionConfirmationService.processConfirmedEvmTransaction`, and
whether a watch-release (`removeAddressIfNoActiveTransactions`) was
attempted. -/
structure MatchOutcome where
  db : List Order
  selected : Option Order
  confirmTriggered : Option String
  removeAttempted : Bool
  deriving DecidableEq

/-- `HypersyncWorker.processTokenTransfer` (TypeScript source): fetch
the pending orders for (chain, decoded `to`), return doing nothing when
there are none; otherwise select by amount with FIFO fallback, set the
selected order to `crypto_confirmed` through `updateCryptoStatus`, and
invoke the confirmation service on it. The source contains no
watch-release call, so `removeAttempted` is always false. `none` models
an uncaught exception from `ethers.parseEther`. -/
def processTokenTransfer (db : List Order) (now : Nat) (chain : String)
    (log : TokenLog) : Option MatchOutcome :=
  let pending := getPendingTransactionsByChainAndAddress db chain log.toAddr now
  match pending with
  | [] => some ⟨db, none, none, false⟩
  | first :: _ =>
    match findAmountMatch log.amount pending with
    | none => none
    | some r =>
      let matched := r.getD first
      some ⟨(updateCryptoStatus db matched.id "crypto_confirmed" log.hash now).1,
            some matched, some matched.transactionId, false⟩

/-! ### Scanner results and cursor (`processResults`, `scanChain`) -/

/-- A native transaction row from the hypersync result, as inspected by
`processEthTransaction`. -/
structure EthTx where
  fromAddr : Option String
  toAddr : Option String
  value : Option String
  hash : String
  deriving DecidableEq

/-- The decoded payload of one scan cycle: ERC-20 Transfer logs and
native transactions. -/
structure ScanData where
  logs : List TokenLog
  transactions : List EthTx
  deriving DecidableEq

/-- State threaded through one scan cycle: the order store and the
transaction ids on which the confirmation service was invoked. -/
structure ScanState where
  db : List Order
  confirms : List String
  deriving DecidableEq

/-- `HypersyncWorker.processEthTransaction` (TypeScript source): the
body only logs the detection (`TODO: Add actual transaction processing
logic here`) — no order lookup, no update, no enqueue, no watch change —
so the state is returned unchanged. -/
def processEthTransaction (st : ScanState) (tx : EthTx) : ScanState :=
  if tx.fromAddr.isSome && tx.toAddr.isSome &&
     (match tx.value with
      | some v => ¬ v == "0x0"
      | none => false) then
    st
  else st

/-- One log step of `processResults`: run `processTokenTransfer` and
record the confirmation-service invocation, propagating its exception. -/
def processTokenTransferStep (now : Nat) (chain : String) (st : ScanState)
    (log : TokenLog) : Option ScanState :=
  (processTokenTransfer st.db now chain log).map (fun out =>
    { db := out.db, confirms := st.confirms ++ out.confirmTriggered.toList })

/-- The log loop of `processResults`. An exception aborts the loop but
keeps the database effects of the completed iterations (the failing
iteration throws before it updates anything); the boolean reports
whether the loop ran to completion. -/
def processLogs (now : Nat) (chain : String) (st : ScanState) :
    List TokenLog → ScanState × Bool
  | [] => (st, true)
  | l :: rest =>
    match processTokenTransferStep now chain st l with
    | none => (st, false)
    | some st1 => processLogs now chain st1 rest

/-- `HypersyncWorker.processResults`: process every Transfer log, then
every native transaction; an exception from the log loop propagates, so
the transaction loop runs only when all logs processed. -/
def processResults (now : Nat) (chain : String) (st : ScanState)
    (res : ScanData) : ScanState × Bool :=
  let (st1, ok) := processLogs now chain st res.logs
  if ok then (res.transactions.foldl processEthTransaction st1, true)
  else (st1, false)

/-- A successful hypersync query: the decoded data and the client's
`nextBlock` resume cursor. -/
structure ScanOk where
  nextBlock : Nat
  data : ScanData
  deriving DecidableEq

/-- `HypersyncWorker.scanChain` for one chain, given the addresses
currently watched there, the chain's `lastScannedBlock`, and the query
outcome (`Except.error` models a failed `client.get`). An empty watch
set or a watch set with no valid addresses (`buildQuery` throws) skips
the cycle. `lastScannedBlock` is set to `res.nextBlock` only after
`processResults` returns; a query error or a processing exception is
caught and leaves the cursor unchanged. -/
def scanChain (st : ScanState) (chain : String) (now : Nat)
    (addrs : List String) (last : Nat) (queryRes : Except Unit ScanOk) :
    ScanState × Nat :=
  if addrs.isEmpty then (st, last)
  else if (addrs.filterMap validateAndNormalizeAddress).isEmpty then (st, last)
  else
    match queryRes with
    | .error _ => (st, last)
    | .ok r =>
      let (st1, ok) := processResults now chain st r.data
      if ok then (st1, r.nextBlock) else (st1, last)

/-! ### Sweep retry queue (`SweeperQueueService`, `transferQueue` table) -/

/-- A `transferQueue` row. -/
structure QueueEntry where
  id : Nat
  transactionId : String
  userId : Nat
  fromAddress : String
  amount : String
  sourceChain : Option String
  sourceCurrency : Option String
  status : String
  retryCount : Nat
  maxRetries : Nat
  errorMessage : Option String
  txHash : Option String
  transferFee : Option String
  lastAttemptAt : Option Nat
  completedAt : Option Nat
  createdAt : Nat
  updatedAt : Nat
  deriving DecidableEq

/-- A keyed update on the queue (`update(transferQueue).set(...).where(eq(id))`). -/
def updateQueueEntry (q : List QueueEntry) (id : Nat) (f : QueueEntry → QueueEntry) :
    List QueueEntry :=
  q.map (fun e => if e.id == id then f e else e)

/-- The order-row mutation of the sweep failure path:
`internalTransferStatus` to `internal_supply_failed` plus the
admin-facing note. -/
def sweepFailedOrderRow (o : Order) (maxRetries : Nat) (err : String) (now : Nat) : Order :=
  { o with internalTransferStatus := some "internal_supply_failed",
           sweepAdminNotes := some ("Background transfer failed after " ++
             toString maxRetries ++ " attempts: " ++ err ++ ". Manual intervention required."),
           updatedAt := now }

/-- `SweeperQueueService.handleTransferFailureById`: re-read the entry;
with `newRetryCount = retryCount + 1`, either revert to PENDING with the
incremented count and the error stored and schedule a retry after
`2^newRetryCount * 1000` ms, or — when `newRetryCount` reaches
`maxRetries` — mark the entry FAILED (storing the error but leaving its
`retryCount` field untouched) and set the owning order's
`internalTransferStatus` to `internal_supply_failed`, scheduling
nothing. Returns (queue, orders, scheduled retry delay in ms). -/
def handleTransferFailureById (q : List QueueEntry) (db : List Order)
    (queueId : Nat) (err : String) (now : Nat) :
    List QueueEntry × List Order × Option Nat :=
  match List.find? (fun e => e.id == queueId) q with
  | none => (q, db, none)
  | some e =>
    let newRetryCount := e.retryCount + 1
    if newRetryCount < e.maxRetries then
      (updateQueueEntry q queueId (fun x =>
         { x with status := "PENDING", retryCount := newRetryCount,
                  errorMessage := some err, updatedAt := now }),
       db,
       some (2 ^ newRetryCount * 1000))
    else
      (updateQueueEntry q queueId (fun x =>
         { x with status := "FAILED", errorMessage := some err, updatedAt := now }),
       db.map (fun o =>
         if o.transactionId == e.transactionId then
           sweepFailedOrderRow o e.maxRetries err now
         else o),
       none)

/-- `SweeperQueueService.retryTransfer`: only an entry currently FAILED
may be retried manually; it is reset to PENDING with `retryCount` 0 and
the error cleared, and background processing is started. Returns
(queue, success, processing started). -/
def retryTransfer (q : List QueueEntry) (queueId : Nat) (now : Nat) :
    List QueueEntry × Bool × Bool :=
  match List.find? (fun e => e.id == queueId) q with
  | none => (q, false, false)
  | some e =>
    if e.status == "FAILED" then
      (updateQueueEntry q queueId (fun x =>
         { x with status := "PENDING", retryCount := 0,
                  errorMessage := none, updatedAt := now }),
       true, true)
    else (q, false, false)

/-- Result of the external sweep executor
(`WalletTransferService.triggerSweep`). -/
structure SweepResult where
  success : Bool
  txHash : Option String
  transferFee : Option String
  error : Option String
  deriving DecidableEq

/-- The order-row mutation of the sweep success path
(`updateTransactionFieldsByTransactionId`): store the sweep transfer's
hash in `sourceTransactionHash` and its fee in `sourceFee` (a drizzle
`set` skips `undefined` values, hence the `Option` matches), set
`internalTransferStatus` to `internal_supply_completed`, and note the
completion. -/
def sweepSuccessOrderRow (o : Order) (res : SweepResult) (now : Nat) : Order :=
  { o with
      sourceTransactionHash :=
        match res.txHash with
        | some h => some h
        | none => o.sourceTransactionHash,
      sourceFee :=
        match res.transferFee with
        | some f => some f
        | none => o.sourceFee,
      internalTransferStatus := some "internal_supply_completed",
      sweepAdminNotes := some "Background transfer to vault completed successfully",
      updatedAt := now }

/-- `SweeperQueueService.processQueuedTransferById`, parameterized by
the external sweep result: mark the entry PROCESSING and stamp
`lastAttemptAt`; a missing `sourceChain`/`sourceCurrency` throws into
the failure handler; on executor success, complete the entry (hash, fee)
and apply `sweepSuccessOrderRow` to the owning order; on executor
failure, delegate to `handleTransferFailureById`. -/
def processQueuedTransferById (q : List QueueEntry) (db : List Order)
    (queueId : Nat) (res : SweepResult) (now : Nat) :
    List QueueEntry × List Order × Option Nat :=
  match List.find? (fun e => e.id == queueId) q with
  | none => (q, db, none)
  | some e =>
    let q1 := updateQueueEntry q queueId (fun x =>
      { x with status := "PROCESSING", lastAttemptAt := some now, updatedAt := now })
    if e.sourceChain.isSome && e.sourceCurrency.isSome then
      if res.success then
        (updateQueueEntry q1 queueId (fun x =>
           { x with status := "COMPLETED", completedAt := some now,
                    txHash := res.txHash, transferFee := res.transferFee,
                    updatedAt := now }),
         db.map (fun o =>
           if o.transactionId == e.transactionId then sweepSuccessOrderRow o res now
           else o),
         none)
      else
        handleTransferFailureById q1 db queueId
          ((res.error).getD "") now
    else
      handleTransferFailureById q1 db queueId
        "Processing error: Error: Missing required fields: sourceChain or sourceCurrency" now

/-! ### Settlement confirmation
(`TransactionConfirmationService.processConfirmedEvmTransaction`) -/

/-- Render a nullable column in a JS template literal. -/
def optStr (o : Option String) : String :=
  o.getD "null"

/-- The row mutation of `handleBalanceVerificationFailure`. -/
def balanceFailureRow (o : Order) (currency err : String) (now : Nat) : Order :=
  { o with cryptoStatus := some "balance_verification_failed", status := "failed",
           adminNotes := some (currency ++ " balance verification failed: " ++ err),
           updatedAt := now }

/-- The row mutation of `handleTransferFailure` with the
`token_from_vault_transfer_failed` crypto status used for the
destination leg. -/
def destFailureRow (o : Order) (transferType err : String) (now : Nat) : Order :=
  { o with cryptoStatus := some "token_from_vault_transfer_failed", status := "failed",
           adminNotes := some (transferType ++ " failed: " ++ err),
           updatedAt := now }

/-- The completion update of `processConfirmedEvmTransaction` (step 4):
overall status and `cryptoStatus` to `completed`, stamp `completedAt`
and `destinationTransactionHash`. It does not touch
`internalTransferStatus`. -/
def completionRow (o : Order) (txHash : Option String) (now : Nat) : Order :=
  { o with cryptoStatus := some "completed", status := "completed",
           destinationTransactionHash :=
             match txHash with
             | some h => some h
             | none => o.destinationTransactionHash,
           completedAt := some now,
           adminNotes := some ("Transaction completed successfully - " ++
             o.sourceCurrency ++ " transferred to " ++ o.destinationCurrency),
           updatedAt := now }

/-- The destination-leg dispatch of `processConfirmedEvmTransaction`:
the `switch (transaction.destinationChain)` has only a `default` arm
(the fiat branch is commented out), so every destination chain yields
the failure `"Destination chain does not exist"`. -/
def executeDestinationTransfer (t : Order) : SweepResult :=
  match t.destinationChain with
  | _ => { success := false, txHash := none, transferFee := none,
           error := some "Destination chain does not exist" }

/-- Outcome of `processConfirmedEvmTransaction`: updated order store,
updated sweep queue, overall success, and the error string of a failure
result. -/
structure ConfirmOutcome where
  db : List Order
  queue : List QueueEntry
  success : Bool
  error : Option String
  deriving DecidableEq

/-- `TransactionConfirmationService.processConfirmedEvmTransaction`,
parameterized by the external balance-verification result and the queue
insert outcome: validate the id and fetch the order; a failed balance
check transitions it to `balance_verification_failed`/`failed`; missing
source fields abort; the sweep job is enqueued (a failed enqueue is only
logged); a missing destination address (for a non-fiat destination
chain) aborts WITHOUT any status change; then the destination-leg
dispatch — which never succeeds in this source — either reaches the
completion update or marks `token_from_vault_transfer_failed`/`failed`. -/
def processConfirmedEvmTransaction (db : List Order) (q : List QueueEntry)
    (transactionId : String) (balanceOk : Bool) (balanceErr : String)
    (queueOk : Bool) (nextQueueId : Nat) (now : Nat) : ConfirmOutcome :=
  if transactionId == "" then
    ⟨db, q, false, some "Transaction ID is required"⟩
  else
    match List.find? (fun o => o.transactionId == transactionId) db with
    | none => ⟨db, q, false, some "Transaction not found"⟩
    | some t =>
      if ¬ balanceOk then
        ⟨db.map (fun o =>
           if o.id == t.id then balanceFailureRow o t.sourceCurrency balanceErr now else o),
         q, false, some balanceErr⟩
      else
        match t.sourceAddress, t.sourceChain with
        | some srcAddr, some srcChain =>
          if t.sourceCurrency == "" then
            ⟨db, q, false,
             some "Missing required fields: sourceAddress, sourceChain, or sourceCurrency"⟩
          else
            let q2 :=
              if queueOk then
                q ++ [{ id := nextQueueId, transactionId := t.transactionId,
                        userId := t.userId, fromAddress := srcAddr,
                        amount := t.sourceAmount, sourceChain := some srcChain,
                        sourceCurrency := some t.sourceCurrency,
                        status := "PENDING", retryCount := 0, maxRetries := 3,
                        errorMessage := none, txHash := none, transferFee := none,
                        lastAttemptAt := none, completedAt := none,
                        createdAt := now, updatedAt := now }]
              else q
            if t.destinationAddress.isNone && !(t.destinationChain == some "fiat") then
              ⟨db, q2, false, some "Destination address is missing"⟩
            else
              let destinationTransfer := executeDestinationTransfer t
              if destinationTransfer.success then
                ⟨db.map (fun o =>
                   if o.id == t.id then completionRow o destinationTransfer.txHash now
                   else o),
                 q2, true, none⟩
              else
                ⟨db.map (fun o =>
                   if o.id == t.id then
                     destFailureRow o (optStr t.destinationChain ++ " transfer")
                       ((destinationTransfer.error).getD "") now
                   else o),
                 q2, false,
                 some (optStr t.destinationChain ++ " transfer failed: " ++
                   (destinationTransfer.error).getD "")⟩
        | _, _ =>
          ⟨db, q, false,
           some "Missing required fields: sourceAddress, sourceChain, or sourceCurrency"⟩

/-! ### Spec-side reference definitions (for refinement comparison) -/

/-- Modelled from the spec: "convert the Order's declared source amount
into the transfer's base unit (18 decimals for native assets; the
token's configured decimal count for contract tokens)"; "accept the
first Order whose required amount ≤ amountReceived"; "if no Order's
amount is satisfied by the received amount, select the oldest
matching-address Order". The candidate list is oldest-first and
`decimals` is the decimal count of the transfer's base unit. -/
def specAmountPred (received decimals : Nat) (t : Order) : Bool :=
  match parseUnits t.sourceAmount decimals with
  | some w => w ≤ received
  | none => false

/-- Modelled from the spec (selection rule): first candidate whose
converted amount is satisfied, oldest candidate otherwise. -/
def specSelectOrder (candidates : List Order) (received : Nat) (decimals : Nat) :
    Option Order :=
  match candidates.find? (specAmountPred received decimals) with
  | some t => some t
  | none => candidates.head?

/-- Modelled from the spec: the candidate filter of the matching engine
— "sourceChain = chain, sourceAddress = recipientAddress
(case-insensitive), cryptoStatus = `waiting_for_crypto`, overall status
∈ {pending, processing}, not expired (expiredAt > now)". -/
def specPendingFilter (chain address : String) (now : Nat) (o : Order) : Bool :=
  o.sourceChain == some chain &&
  (match o.sourceAddress with
   | some a => a.toList.map toLowerChar == address.toList.map toLowerChar
   | none => false) &&
  o.cryptoStatus == some "waiting_for_crypto" &&
  (o.status == "pending" || o.status == "processing") &&
  (match o.expiredAt with
   | some t => now < t
   | none => false)

/-! ### Concrete sample data -/

/-- A valid (40 hex characters) watched address. -/
def addrA : String := "0xaabbccddeeff00112233445566778899aabbccdd"

/-- The same address with upper-case hex digits. -/
def addrAUpper : String := "0xAABBCCDDEEFF00112233445566778899AABBCCDD"

/-- A baseline pending crypto-to-crypto order on sepolia, declared
source amount 2.0 USDC. -/
def baseOrder : Order :=
  { id := 1, transactionId := "TXN1", userId := 11,
    transactionType := "crypto_to_crypto",
    status := "pending", cryptoStatus := some "waiting_for_crypto",
    fiatStatus := none, internalTransferStatus := none,
    sourceChain := some "sepolia", sourceAddress := some addrA,
    sourceCurrency := "USDC", sourceAmount := "2.0",
    destinationCurrency := "ETH", destinationChain := some "ethereum",
    destinationAddress := some "0x11cd4b196cb0c7b01d743fbc6116a902379c7238",
    sourceTransactionHash := none, destinationTransactionHash := none,
    sourceFee := none, adminNotes := none, sweepAdminNotes := none,
    createdAt := 100, updatedAt := 100, expiredAt := some 2000,
    cryptoReceivedAt := none, completedAt := none }

/-- The older candidate: amount 2.0, created at 100. -/
def oOld : Order := baseOrder

/-- The newer candidate: amount 1.0, created at 200. -/
def oNew : Order :=
  { baseOrder with id := 2, transactionId := "TXN2", sourceAmount := "1.0",
                   createdAt := 200, updatedAt := 200 }

/-- An order already advanced to `crypto_confirmed`, with the deposit
hash recorded. -/
def oConfirmed : Order :=
  { baseOrder with id := 7, transactionId := "TXN7",
                   cryptoStatus := some "crypto_confirmed", status := "processing",
                   sourceTransactionHash := some "0xfirsthash" }

/-- An order whose `expiredAt` equals the query time exactly. -/
def oBoundary : Order :=
  { baseOrder with id := 3, transactionId := "TXN3", expiredAt := some 1000 }

/-- An order whose stored `sourceAddress` uses upper-case hex. -/
def oMixedCase : Order :=
  { baseOrder with id := 4, transactionId := "TXN4x",
                   sourceAddress := some addrAUpper }

/-- A non-terminal order (overall status `processing`) whose `expiredAt`
has long passed. -/
def oProcessing : Order :=
  { baseOrder with id := 5, transactionId := "TXN5", status := "processing",
                   expiredAt := some 10 }

/-- A matched order awaiting confirmation whose destination address is
missing while the destination chain is not fiat. -/
def oNoDest : Order :=
  { baseOrder with id := 6, transactionId := "TXN6", status := "processing",
                   cryptoStatus := some "crypto_confirmed",
                   destinationAddress := none }

/-- An order whose `sourceTransactionHash` already records the matched
deposit. -/
def oWithHash : Order :=
  { baseOrder with id := 9, transactionId := "TXN9", status := "processing",
                   cryptoStatus := some "crypto_confirmed",
                   sourceTransactionHash := some "0xdeposithash" }

/-- A baseline sweep queue entry for `oWithHash`. -/
def qeBase : QueueEntry :=
  { id := 5, transactionId := "TXN9", userId := 11, fromAddress := addrA,
    amount := "2.0", sourceChain := some "sepolia",
    sourceCurrency := some "USDC", status := "PENDING", retryCount := 0,
    maxRetries := 3, errorMessage := none, txHash := none, transferFee := none,
    lastAttemptAt := none, completedAt := none, createdAt := 300, updatedAt := 300 }

/-- A sweep entry on its last allowed attempt (`retryCount = 2`,
`maxRetries = 3`) currently PROCESSING. -/
def qeLastTry : QueueEntry :=
  { qeBase with id := 6, status := "PROCESSING", retryCount := 2 }

/-- A sweep entry already FAILED with some retries consumed. -/
def qeFailed : QueueEntry :=
  { qeBase with id := 8, status := "FAILED", retryCount := 2,
                errorMessage := some "boom" }

/-- A successful sweep executor result. -/
def sweepOk : SweepResult :=
  { success := true, txHash := some "0xsweephash", transferFee := some "0.01",
    error := none }

/-- A decoded Transfer log of 1000000 base units (1.0 USDC at the
6 decimals configured for sepolia) to `addrA`. -/
def logW : TokenLog :=
  { address := "0x1c7d4b196cb0c7b01d743fbc6116a902379c7238", toAddr := addrA,
    amount := 1000000, hash := some "0xloghash" }

/-- Placeholder outcome used to concretize `Option.getD` in witnesses. -/
def noOutcome : MatchOutcome :=
  { db := [], selected := none, confirmTriggered := none, removeAttempted := false }

/-- The outcome of delivering `logW` against the two candidates. -/
def outTwoCandidates : MatchOutcome :=
  (processTokenTransfer [oOld, oNew] 500 "sepolia" logW).getD noOutcome

/-- The outcome of delivering `logW` against a store holding one
already-confirmed order next to one pending order. -/
def outWithConfirmed : MatchOutcome :=
  (processTokenTransfer [oConfirmed, oOld] 500 "sepolia" logW).getD noOutcome

/-- The chains configured in the sample watch registry. -/
def chainsA : List String := ["sepolia"]

/-- A watch registry watching `addrA` on sepolia. -/
def wsA : WatchState := [("sepolia", [addrA])]

/-- A Transfer log to an address no order is waiting on. -/
def logOther : TokenLog :=
  { logW with toAddr := "0x775b1b8a06eba4633c979a4042a9192fffefd1c3" }

/-! ## Helper lemmas -/

theorem mem_sortByCreatedAt {o : Order} {l : List Order} :
    o ∈ sortByCreatedAt l ↔ o ∈ l :=
  (List.perm_insertionSort createdLe l).mem_iff

theorem sorted_sortByCreatedAt (l : List Order) :
    List.Sorted createdLe (sortByCreatedAt l) :=
  List.sorted_insertionSort createdLe l

theorem mem_getPending {db : List Order} {chain address : String} {now : Nat}
    {o : Order} :
    o ∈ getPendingTransactionsByChainAndAddress db chain address now ↔
    o ∈ db ∧ isPendingFor chain address now o = true := by
  unfold getPendingTransactionsByChainAndAddress
  rw [mem_sortByCreatedAt, List.mem_filter]

theorem findAmountMatch_mem {amt : Nat} {l : List Order} {t : Order}
    (h : findAmountMatch amt l = some (some t)) : t ∈ l := by
  induction l with
  | nil => simp [findAmountMatch] at h
  | cons a rest ih =>
    unfold findAmountMatch at h
    split at h
    · cases h
    · split at h
      · injection h with h1
        injection h1 with h2
        subst h2
        exact List.mem_cons_self a rest
      · exact List.mem_cons_of_mem a (ih h)

theorem findAmountMatch_find?_some {amt : Nat} {l : List Order} {t : Order}
    (h : findAmountMatch amt l = some (some t)) :
    l.find? (specAmountPred amt 18) = some t := by
  induction l with
  | nil => simp [findAmountMatch] at h
  | cons a rest ih =>
    unfold findAmountMatch at h
    split at h
    · cases h
    · rename_i w hp
      have hp18 : parseUnits a.sourceAmount 18 = some w := hp
      split at h
      · rename_i hw
        injection h with h1
        injection h1 with h2
        subst h2
        rw [List.find?_cons_of_pos]
        simp [specAmountPred, hp18, hw]
      · rename_i hw
        rw [List.find?_cons_of_neg]
        · exact ih h
        · simp [specAmountPred, hp18, hw]

theorem findAmountMatch_find?_none {amt : Nat} {l : List Order}
    (h : findAmountMatch amt l = some none) :
    l.find? (specAmountPred amt 18) = none := by
  induction l with
  | nil => simp
  | cons a rest ih =>
    unfold findAmountMatch at h
    split at h
    · cases h
    · rename_i w hp
      have hp18 : parseUnits a.sourceAmount 18 = some w := hp
      split at h
      · cases h
      · rename_i hw
        rw [List.find?_cons_of_neg]
        · exact ih h
        · simp [specAmountPred, hp18, hw]

/-- Case analysis on one `processTokenTransfer` run: either there were
no candidates and nothing happened, or a candidate from the pending
query was selected, confirmed, and written back. -/
theorem processTokenTransfer_shape {db : List Order} {now : Nat} {chain : String}
    {log : TokenLog} {out : MatchOutcome}
    (h : processTokenTransfer db now chain log = some out) :
    (out = ⟨db, none, none, false⟩ ∧
      getPendingTransactionsByChainAndAddress db chain log.toAddr now = []) ∨
    (∃ t, out.selected = some t ∧ out.confirmTriggered = some t.transactionId ∧
      out.removeAttempted = false ∧
      t ∈ getPendingTransactionsByChainAndAddress db chain log.toAddr now ∧
      out.db = (updateCryptoStatus db t.id "crypto_confirmed" log.hash now).1) := by
  unfold processTokenTransfer at h
  cases hp : getPendingTransactionsByChainAndAddress db chain log.toAddr now with
  | nil =>
    rw [hp] at h
    simp at h
    exact Or.inl ⟨h.symm, rfl⟩
  | cons first rest =>
    rw [hp] at h
    simp only at h
    cases hf : findAmountMatch log.amount (first :: rest) with
    | none => rw [hf] at h; cases h
    | some r =>
      rw [hf] at h
      cases h
      right
      refine ⟨r.getD first, rfl, rfl, rfl, ?_, rfl⟩
      cases r with
      | none => exact List.mem_cons_self first rest
      | some t =>
        have : t ∈ first :: rest := findAmountMatch_mem hf
        simpa using this

/-- Unfolding of the pending-candidate filter into propositional form. -/
theorem isPendingFor_iff {chain address : String} {now : Nat} {o : Order} :
    isPendingFor chain address now o = true ↔
    (o.sourceChain = some chain ∧ o.sourceAddress = some address ∧
     o.cryptoStatus = some "waiting_for_crypto" ∧
     (o.status = "pending" ∨ o.status = "processing") ∧
     ∃ t, o.expiredAt = some t ∧ now ≤ t) := by
  unfold isPendingFor
  cases he : o.expiredAt with
  | none => simp
  | some tt =>
    simp only [he]
    simp
    tauto

/-! ## Claim theorems -/

/-- C10: native-coin transactions returned by a scan cycle are never
acted upon — `processEthTransaction` leaves the scanner state (order
store and triggered confirmations) unchanged, and `processResults`
equals processing the ERC-20 Transfer logs alone. -/
theorem processEthTransaction_no_effect :
    (∀ st tx, processEthTransaction st tx = st) ∧
    (∀ now chain st res,
      processResults now chain st res = processLogs now chain st res.logs) := by
  have h1 : ∀ st tx, processEthTransaction st tx = st := by
    intro st tx
    unfold processEthTransaction
    split <;> rfl
  refine ⟨h1, ?_⟩
  intro now chain st res
  have hfold : ∀ (l : List EthTx) (s : ScanState),
      List.foldl processEthTransaction s l = s := by
    intro l
    induction l with
    | nil => intro s; rfl
    | cons a rest ih => intro s; rw [List.foldl_cons, h1, ih]
  unfold processResults
  cases hl : processLogs now chain st res.logs with
  | mk st1 ok => cases ok <;> simp [hfold]

/-- A failed query leaves the scan state and cursor untouched in every
branch of `scanChain`. -/
theorem scanChain_error (st : ScanState) (chain : String) (now : Nat)
    (addrs : List String) (last : Nat) (e : Unit) :
    scanChain st chain now addrs last (Except.error e) = (st, last) := by
  unfold scanChain
  split
  · rfl
  · split
    · rfl
    · rfl

/-- A successful query on a non-empty, valid watch set processes the
results and then advances the cursor exactly when processing completed. -/
theorem scanChain_ok (st : ScanState) (chain : String) (now : Nat)
    (addrs : List String) (last : Nat) (r : ScanOk)
    (h1 : addrs.isEmpty = false)
    (h2 : (addrs.filterMap validateAndNormalizeAddress).isEmpty = false) :
    scanChain st chain now addrs last (Except.ok r) =
      (if (processResults now chain st r.data).2 = true
       then ((processResults now chain st r.data).1, r.nextBlock)
       else ((processResults now chain st r.data).1, last)) := by
  unfold scanChain
  rw [if_neg (by simp [h1]), if_neg (by simp [h2])]

/-- C8: for a scan cycle, a query error leaves `lastScannedBlock`
unchanged; a successful cycle (non-empty valid watch set, successful
query and processing) sets it to the query's returned `nextBlock`
regardless of whether any match was found; under the chain client's
contract `last ≤ nextBlock` the post-cycle cursor never decreases. -/
theorem scanChain_cursor_monotone (st : ScanState) (chain : String) (now : Nat)
    (addrs : List String) (last : Nat) (r : ScanOk)
    (hnb : last ≤ r.nextBlock) :
    (scanChain st chain now addrs last (Except.error ())).2 = last ∧
    last ≤ (scanChain st chain now addrs last (Except.ok r)).2 ∧
    (addrs.isEmpty = false →
      (addrs.filterMap validateAndNormalizeAddress).isEmpty = false →
      (processResults now chain st r.data).2 = true →
      (scanChain st chain now addrs last (Except.ok r)).2 = r.nextBlock) := by
  refine ⟨by rw [scanChain_error], ?_, ?_⟩
  · by_cases h1 : addrs.isEmpty = true
    · unfold scanChain
      rw [if_pos h1]
    · by_cases h2 : (addrs.filterMap validateAndNormalizeAddress).isEmpty = true
      · unfold scanChain
        rw [if_neg h1, if_pos h2]
      · rw [scanChain_ok st chain now addrs last r
          (Bool.eq_false_iff.mpr (by simpa using h1))
          (Bool.eq_false_iff.mpr (by simpa using h2))]
        by_cases h3 : (processResults now chain st r.data).2 = true
        · rw [if_pos h3]
          exact hnb
        · rw [if_neg h3]
  · intro h1 h2 h3
    rw [scanChain_ok st chain now addrs last r h1 h2, if_pos h3]

/-- C1: counterexample — two pending USDC orders on sepolia (older
amount 2.0, newer amount 1.0) and a received token amount of 1000000
base units (1.0 USDC at the token's configured 6 decimals). Under the
claimed conversion (token's configured decimal count) the first
candidate whose required amount is satisfied is the newer order (id 2);
the code, converting with `ethers.parseEther` (18 decimals) even for
token transfers, satisfies no candidate and falls back to the oldest
order (id 1). -/
theorem processTokenTransfer_ignores_token_decimals :
    (specSelectOrder
        (getPendingTransactionsByChainAndAddress [oOld, oNew] "sepolia" addrA 500)
        logW.amount 6).map Order.id = some 2 ∧
    (processTokenTransfer [oOld, oNew] 500 "sepolia" logW).map
        (fun o => o.selected.map Order.id) = some (some 1) ∧
    oOld.createdAt < oNew.createdAt := by
  decide

/-- C1 (amended): in the hypersync scanner's token path, every
candidate's declared source amount is converted at 18 decimals
(`ethers.parseEther`) regardless of the token's configured decimals;
the engine selects the first candidate — the candidate list being
sorted oldest-first — whose 18-decimal amount is at most the received
amount, and falls back to the oldest candidate when none is satisfied. -/
theorem processTokenTransfer_selection (db : List Order) (now : Nat)
    (chain : String) (log : TokenLog) (out : MatchOutcome)
    (h : processTokenTransfer db now chain log = some out) :
    out.selected =
      specSelectOrder (getPendingTransactionsByChainAndAddress db chain log.toAddr now)
        log.amount 18 ∧
    List.Sorted createdLe
      (getPendingTransactionsByChainAndAddress db chain log.toAddr now) := by
  refine ⟨?_, sorted_sortByCreatedAt _⟩
  unfold processTokenTransfer at h
  cases hp : getPendingTransactionsByChainAndAddress db chain log.toAddr now with
  | nil =>
    rw [hp] at h
    simp at h
    rw [← h]
    simp [specSelectOrder]
  | cons first rest =>
    rw [hp] at h
    simp only at h
    cases hf : findAmountMatch log.amount (first :: rest) with
    | none => rw [hf] at h; cases h
    | some r =>
      rw [hf] at h
      cases h
      cases r with
      | some t =>
        have hfind := findAmountMatch_find?_some hf
        simp [specSelectOrder, hfind]
      | none =>
        have hfind := findAmountMatch_find?_none hf
        simp [specSelectOrder, hfind]

/-- C1 witness: the amended selection rule evaluated on the concrete
two-candidate store. -/
theorem processTokenTransfer_selection_witness :
    outTwoCandidates.selected =
      specSelectOrder
        (getPendingTransactionsByChainAndAddress [oOld, oNew] "sepolia" logW.toAddr 500)
        logW.amount 18 ∧
    List.Sorted createdLe
      (getPendingTransactionsByChainAndAddress [oOld, oNew] "sepolia" logW.toAddr 500) :=
  processTokenTransfer_selection [oOld, oNew] 500 "sepolia" logW outTwoCandidates
    (by decide)

/-- C2: counterexample — `updateCryptoStatus` is not a conditional
state change guarded by the current `cryptoStatus`: applied to an order
already at `crypto_confirmed` it succeeds again (returns true),
restamps `cryptoReceivedAt`, and overwrites the recorded transfer
hash. -/
theorem updateCryptoStatus_not_guarded :
    oConfirmed.cryptoStatus = some "crypto_confirmed" ∧
    oConfirmed.sourceTransactionHash = some "0xfirsthash" ∧
    (updateCryptoStatus [oConfirmed] 7 "crypto_confirmed" (some "0xsecond") 500).2
      = true ∧
    ((updateCryptoStatus [oConfirmed] 7 "crypto_confirmed" (some "0xsecond") 500).1.map
        Order.sourceTransactionHash) = [some "0xsecond"] ∧
    ((updateCryptoStatus [oConfirmed] 7 "crypto_confirmed" (some "0xsecond") 500).1.map
        Order.cryptoReceivedAt) = [some 500] := by
  decide

/-- C2 (amended): `updateCryptoStatus` applies unconditionally whenever
the order id exists, but re-delivery protection comes from the candidate
query: an order whose `cryptoStatus` is already `crypto_confirmed` is
excluded from the `waiting_for_crypto` candidates, so processing the
same transfer again never selects it and never re-triggers the
Settlement Confirmation Service for it (ids and transaction ids being
unique across orders, as the schema enforces). -/
theorem confirmed_order_never_rematched (db : List Order) (now : Nat)
    (chain : String) (log : TokenLog) (out : MatchOutcome) (o : Order)
    (h : processTokenTransfer db now chain log = some out)
    (ho : o ∈ db) (hc : o.cryptoStatus = some "crypto_confirmed")
    (hid : ∀ o1 ∈ db, ∀ o2 ∈ db, o1.id = o2.id → o1 = o2)
    (htid : ∀ o1 ∈ db, ∀ o2 ∈ db, o1.transactionId = o2.transactionId → o1 = o2) :
    out.selected ≠ some o ∧
    (∀ t, out.selected = some t → t.id ≠ o.id) ∧
    out.confirmTriggered ≠ some o.transactionId := by
  rcases processTokenTransfer_shape h with ⟨hout, hpend⟩ | ⟨t, hsel, hconf, hrem, htm, hdb⟩
  · rw [hout]
    refine ⟨by simp, by simp, by simp⟩
  · have htmem := mem_getPending.mp htm
    have hwait : t.cryptoStatus = some "waiting_for_crypto" :=
      (isPendingFor_iff.mp htmem.2).2.2.1
    have hto : t ≠ o := by
      intro he
      rw [he, hc] at hwait
      simp at hwait
    refine ⟨?_, ?_, ?_⟩
    · rw [hsel]
      intro hcon
      injection hcon with h1
      exact hto h1
    · intro t2 hsel2 hteq
      rw [hsel] at hsel2
      injection hsel2 with h2
      subst h2
      exact hto (hid t htmem.1 o ho hteq)
    · rw [hconf]
      intro hcon
      injection hcon with h3
      exact hto (htid t htmem.1 o ho h3)

/-- C2 witness: the amended no-re-trigger property on a concrete store
holding a confirmed order next to a pending one — the transfer selects
the pending order (id 1), never the confirmed one (id 7). -/
theorem confirmed_order_never_rematched_witness :
    outWithConfirmed.selected ≠ some oConfirmed ∧
    oOld.id ≠ oConfirmed.id ∧
    outWithConfirmed.confirmTriggered ≠ some oConfirmed.transactionId :=
  have h := confirmed_order_never_rematched [oConfirmed, oOld] 500 "sepolia" logW
    outWithConfirmed oConfirmed (by decide) (by decide) (by decide)
    (by decide) (by decide)
  ⟨h.1, h.2.1 oOld (by decide), h.2.2⟩

/-- C3: counterexample — the candidate query differs from the claimed
set on two points: an order whose `expiredAt` equals `now` exactly is
returned by the code (`gte`, not strictly greater), and an order whose
stored address differs from the queried address only in hex-digit case
is NOT returned (SQL `eq`, not case-insensitive), while the claimed
filter decides both the other way. -/
theorem pending_query_not_case_insensitive_nor_strict :
    (getPendingTransactionsByChainAndAddress [oBoundary] "sepolia" addrA 1000
        = [oBoundary] ∧
     specPendingFilter "sepolia" addrA 1000 oBoundary = false ∧
     oBoundary.expiredAt = some 1000) ∧
    (getPendingTransactionsByChainAndAddress [oMixedCase] "sepolia" addrA 500 = [] ∧
     specPendingFilter "sepolia" addrA 500 oMixedCase = true ∧
     oMixedCase.sourceAddress = some addrAUpper) := by
  decide

/-- C3 (amended): the candidate set is exactly the orders with
`sourceChain = chain`, `sourceAddress = address` by exact string
equality (callers pass lowercase-normalized addresses),
`cryptoStatus = waiting_for_crypto`, overall status in
{pending, processing} and `expiredAt ≥ now` (not strictly greater),
returned oldest-first; an empty candidate set makes the engine perform
no state change. -/
theorem pending_query_characterization (db : List Order)
    (chain address : String) (now : Nat) :
    (∀ o, o ∈ getPendingTransactionsByChainAndAddress db chain address now ↔
      (o ∈ db ∧ o.sourceChain = some chain ∧ o.sourceAddress = some address ∧
       o.cryptoStatus = some "waiting_for_crypto" ∧
       (o.status = "pending" ∨ o.status = "processing") ∧
       ∃ t, o.expiredAt = some t ∧ now ≤ t)) ∧
    List.Sorted createdLe
      (getPendingTransactionsByChainAndAddress db chain address now) ∧
    (∀ log : TokenLog, log.toAddr = address →
      getPendingTransactionsByChainAndAddress db chain address now = [] →
      processTokenTransfer db now chain log = some ⟨db, none, none, false⟩) := by
  refine ⟨?_, sorted_sortByCreatedAt _, ?_⟩
  · intro o
    rw [mem_getPending, isPendingFor_iff]
  · intro log hlog hempty
    simp only [processTokenTransfer, hlog, hempty]

/-- C3 witness: the amended query characterization on concrete stores —
the boundary order is a member, and a transfer to an unmatched address
is a no-op. -/
theorem pending_query_characterization_witness :
    oBoundary ∈ getPendingTransactionsByChainAndAddress [oBoundary] "sepolia" addrA 1000 ∧
    processTokenTransfer [oNew] 500 "sepolia" logOther
      = some ⟨[oNew], none, none, false⟩ := by
  constructor
  · exact ((pending_query_characterization [oBoundary] "sepolia" addrA 1000).1
      oBoundary).mpr
      ⟨by decide, by decide, by decide, by decide, by decide, 1000, by decide, by decide⟩
  · exact (pending_query_characterization [oNew] "sepolia" logOther.toAddr 500).2.2
      logOther rfl (by decide)

/-- An expired row can never match the expiry filter again: its status
`expired` is not in the fixed status list. -/
theorem isExpiredRow_expireRow (o : Order) (now now2 : Nat) :
    isExpiredRow now2 (expireRow o now) = false := by
  unfold isExpiredRow expireRow
  have h : expirableStatuses.contains "expired" = false := by decide
  simp only [h, Bool.false_and]

/-- `dedupKeepFirst` yields a duplicate-free list avoiding the seen
set. -/
theorem dedupKeepFirst_nodup (l seen : List (String × String)) :
    (dedupKeepFirst seen l).Nodup ∧
    ∀ p ∈ dedupKeepFirst seen l, ¬ seen.contains p = true := by
  induction l generalizing seen with
  | nil => exact ⟨List.nodup_nil, by simp [dedupKeepFirst]⟩
  | cons p rest ih =>
    unfold dedupKeepFirst
    by_cases hc : seen.contains p = true
    · rw [if_pos hc]
      exact ih seen
    · rw [if_neg hc]
      refine ⟨List.nodup_cons.mpr ⟨?_, (ih (p :: seen)).1⟩, ?_⟩
      · intro hmem
        exact (ih (p :: seen)).2 p hmem (by simp)
      · intro q hq
        rcases List.mem_cons.mp hq with rfl | hq2
        · exact hc
        · intro hqseen
          exact (ih (p :: seen)).2 q hq2 (by simp at hqseen ⊢; exact Or.inr hqseen)

/-- `expireOldTransactions` when nothing matches. -/
theorem expireOldTransactions_eq_pos (db : List Order) (now : Nat)
    (hE : (findExpiredTransactions db now).isEmpty = true) :
    expireOldTransactions db now = (db, 0, []) := by
  unfold expireOldTransactions
  rw [if_pos hE]

/-- `expireOldTransactions` when some rows match, written out. -/
theorem expireOldTransactions_eq_neg (db : List Order) (now : Nat)
    (hE : ¬ (findExpiredTransactions db now).isEmpty = true) :
    expireOldTransactions db now =
      (db.map (fun o =>
         if ((findExpiredTransactions db now).map (·.id)).contains o.id then
           expireRow o now
         else o),
       (findExpiredTransactions db now).length,
       dedupKeepFirst []
         ((findExpiredTransactions db now).filterMap (fun o =>
           match o.sourceAddress, o.sourceChain with
           | some a, some c => some (a, c)
           | _, _ => none))) := by
  unfold expireOldTransactions
  rw [if_neg hE]

/-- After one expiry pass no row matches the expiry filter at the same
instant. -/
theorem findExpired_after_expire (db : List Order) (now : Nat) :
    findExpiredTransactions (expireOldTransactions db now).1 now = [] := by
  by_cases hE : (findExpiredTransactions db now).isEmpty = true
  · rw [expireOldTransactions_eq_pos db now hE]
    exact List.isEmpty_iff.mp hE
  · rw [expireOldTransactions_eq_neg db now hE]
    refine List.filter_eq_nil_iff.mpr ?_
    intro o2 ho2
    rcases List.mem_map.mp ho2 with ⟨o, ho, rfl⟩
    by_cases hid : ((findExpiredTransactions db now).map (·.id)).contains o.id = true
    · rw [if_pos hid]
      simp [isExpiredRow_expireRow]
    · rw [if_neg hid]
      intro hpred
      apply hid
      have hoE : o ∈ findExpiredTransactions db now :=
        List.mem_filter.mpr ⟨ho, hpred⟩
      simp
      exact ⟨o, hoE, rfl⟩

/-- C6: counterexample — an order with overall status `processing` (a
non-terminal status) whose `expiredAt` has long passed is NOT expired
by `expireOldTransactions`: the status filter covers only
{waiting_for_crypto, waiting_for_fiat, crypto_pending, fiat_pending,
pending}. -/
theorem expireOldTransactions_misses_processing :
    oProcessing.status = "processing" ∧
    oProcessing.expiredAt = some 10 ∧
    expireOldTransactions [oProcessing] 100 = ([oProcessing], 0, []) := by
  decide

/-- C6 (amended): `expireOldTransactions` finds the orders whose status
is in {waiting_for_crypto, waiting_for_fiat, crypto_pending,
fiat_pending, pending} (not every non-terminal status — `processing`
and `processing_payout` escape it) with `expiredAt ≤ now`,
bulk-transitions their status, cryptoStatus and fiatStatus to
`expired`, returns their count and the distinct (address, chain) pairs
among them, and is idempotent: an immediate second call finds nothing
further to expire. -/
theorem expireOldTransactions_spec (db : List Order) (now : Nat) :
    (∀ o ∈ db, isExpiredRow now o = true →
      ∃ o2 ∈ (expireOldTransactions db now).1, o2.id = o.id ∧
        o2.status = "expired" ∧ o2.cryptoStatus = some "expired" ∧
        o2.fiatStatus = some "expired") ∧
    (expireOldTransactions db now).2.1 = (findExpiredTransactions db now).length ∧
    ((expireOldTransactions db now).2.2).Nodup ∧
    expireOldTransactions (expireOldTransactions db now).1 now
      = ((expireOldTransactions db now).1, 0, []) := by
  refine ⟨?_, ?_, ?_, ?_⟩
  · intro o ho hpred
    have hoE : o ∈ findExpiredTransactions db now := List.mem_filter.mpr ⟨ho, hpred⟩
    have hE : ¬ (findExpiredTransactions db now).isEmpty = true := by
      intro habs
      rw [List.isEmpty_iff.mp habs] at hoE
      cases hoE
    rw [expireOldTransactions_eq_neg db now hE]
    refine ⟨expireRow o now, ?_, rfl, rfl, rfl, rfl⟩
    apply List.mem_map.mpr
    refine ⟨o, ho, ?_⟩
    rw [if_pos]
    simp
    exact ⟨o, hoE, rfl⟩
  · by_cases hE : (findExpiredTransactions db now).isEmpty = true
    · rw [expireOldTransactions_eq_pos db now hE, List.isEmpty_iff.mp hE]
      rfl
    · rw [expireOldTransactions_eq_neg db now hE]
  · by_cases hE : (findExpiredTransactions db now).isEmpty = true
    · rw [expireOldTransactions_eq_pos db now hE]
      exact List.nodup_nil
    · rw [expireOldTransactions_eq_neg db now hE]
      exact (dedupKeepFirst_nodup _ _).1
  · have h2 := findExpired_after_expire db now
    rw [expireOldTransactions_eq_pos _ now (by rw [h2]; rfl)]

/-- C6 witness: the amended expiry behaviour on a concrete store with
one eligible and one ineligible order. -/
theorem expireOldTransactions_spec_witness :
    (∃ o2 ∈ (expireOldTransactions [oOld, oProcessing] 3000).1,
      o2.id = oOld.id ∧ o2.status = "expired" ∧
      o2.cryptoStatus = some "expired" ∧ o2.fiatStatus = some "expired") ∧
    expireOldTransactions (expireOldTransactions [oOld, oProcessing] 3000).1 3000
      = ((expireOldTransactions [oOld, oProcessing] 3000).1, 0, []) :=
  ⟨(expireOldTransactions_spec [oOld, oProcessing] 3000).1 oOld (by decide) (by decide),
   (expireOldTransactions_spec [oOld, oProcessing] 3000).2.2.2⟩

/-- Lower-casing fixes lowercase hex characters. -/
theorem toLowerChar_of_lowerHex (c : Char) (h : isLowerHexDigit c = true) :
    toLowerChar c = c := by
  have h2 : (48 ≤ c.toNat ∧ c.toNat ≤ 57) ∨ (97 ≤ c.toNat ∧ c.toNat ≤ 102) := by
    simpa [isLowerHexDigit, Bool.or_eq_true, Bool.and_eq_true,
      decide_eq_true_eq] using h
  unfold toLowerChar
  rw [if_neg (by omega)]

/-- Lower-casing fixes a string of lowercase hex characters. -/
theorem map_toLowerChar_of_all (cl : List Char) (h : cl.all isLowerHexDigit = true) :
    cl.map toLowerChar = cl := by
  induction cl with
  | nil => rfl
  | cons c rest ih =>
    rw [List.all_cons, Bool.and_eq_true] at h
    rw [List.map_cons, toLowerChar_of_lowerHex c h.1, ih h.2]

/-- A successful validation yields `0x` plus 40 lowercase hex
characters. -/
theorem validateAndNormalizeAddress_some {s norm : String}
    (h : validateAndNormalizeAddress s = some norm) :
    ∃ cl : List Char, norm = String.mk ('0' :: 'x' :: cl) ∧
      (cl.length == 40 && cl.all isLowerHexDigit) = true := by
  unfold validateAndNormalizeAddress at h
  dsimp only at h
  split at h
  · rename_i hcond
    injection h with h1
    exact ⟨_, h1.symm, hcond⟩
  · cases h

/-- A normalized address validates to itself. -/
theorem validateAndNormalizeAddress_idem {s norm : String}
    (h : validateAndNormalizeAddress s = some norm) :
    validateAndNormalizeAddress norm = some norm := by
  rcases validateAndNormalizeAddress_some h with ⟨cl, rfl, hcond⟩
  have hcl := (Bool.and_eq_true _ _).mp hcond
  have hlist : (String.mk ('0' :: 'x' :: cl)).toList.map toLowerChar
      = '0' :: 'x' :: cl := by
    show ('0' :: 'x' :: cl).map toLowerChar = '0' :: 'x' :: cl
    rw [List.map_cons, List.map_cons, map_toLowerChar_of_all cl hcl.2]
    rfl
  unfold validateAndNormalizeAddress
  dsimp only
  rw [hlist]
  simp only [if_pos hcond]

/-- Filtering out an address removes it from containment. -/
theorem contains_filter_ne (l : List String) (norm : String) :
    (l.filter (fun a => ¬ a == norm)).contains norm = false := by
  simp [List.mem_filter]

/-- `watchedOn` after the per-chain filter update of `removeAddress`. -/
theorem watchedOn_remove (ws : WatchState) (chain : String) (q : String → Bool) :
    watchedOn (ws.map (fun p => if p.1 == chain then (p.1, p.2.filter q) else p)) chain
      = (watchedOn ws chain).filter q := by
  induction ws with
  | nil => rfl
  | cons p rest ih =>
    by_cases hc : (p.1 == chain) = true
    · rw [List.map_cons, if_pos hc]
      unfold watchedOn
      rw [@List.find?_cons_of_pos _ (fun x => x.1 == chain) _
            (List.map (fun x => if x.1 == chain then (x.1, x.2.filter q) else x) rest)
            (by simpa using hc),
          @List.find?_cons_of_pos _ (fun x => x.1 == chain) p rest hc]
    · rw [List.map_cons, if_neg hc]
      unfold watchedOn
      rw [@List.find?_cons_of_neg _ (fun x => x.1 == chain) _
            (List.map (fun x => if x.1 == chain then (x.1, x.2.filter q) else x) rest)
            (by simpa using hc),
          @List.find?_cons_of_neg _ (fun x => x.1 == chain) p rest hc]
      exact ih

/-- `removeAddress` on a configured chain and valid normalized address:
filter the chain's list and report prior containment. -/
theorem removeAddress_spec (chains : List String) (ws : WatchState)
    (norm chain : String)
    (hn : validateAndNormalizeAddress norm = some norm)
    (hchain : chains.contains chain = true) :
    removeAddress chains ws norm chain =
      (ws.map (fun p =>
         if p.1 == chain then (p.1, p.2.filter (fun a => ¬ a == norm)) else p),
       (watchedOn ws chain).contains norm) := by
  unfold removeAddress
  rw [if_pos hchain, hn]

/-- C7: counterexample — the hypersync scanner's `processTokenTransfer`
processes a matched transfer (order 1 is selected and confirmed) yet
never attempts a watch release: no `removeIfNoActiveOrders` call exists
on this path. -/
theorem processTokenTransfer_never_releases_watch :
    (processTokenTransfer [oOld] 500 "sepolia" logW).map
      (fun o => (o.selected.map Order.id, o.removeAttempted)) = some (some 1, false) := by
  decide

/-- C7 (amended): the scanner's token path performs no watch release
after processing; `removeAddressIfNoActiveTransactions` itself keeps
the address watched and returns false whenever pending orders remain
for (chain, normalized address), and with none remaining (on a
configured chain) it removes the address from the chain's watch list,
returning whether it was present. -/
theorem removeIfNoActive_spec (chains : List String) (ws : WatchState)
    (db : List Order) (now : Nat) (address chain norm : String)
    (hv : validateAndNormalizeAddress address = some norm) :
    (∀ (dbx : List Order) (nowx : Nat) (chainx : String) (log : TokenLog)
       (out : MatchOutcome),
       processTokenTransfer dbx nowx chainx log = some out →
       out.removeAttempted = false) ∧
    (getPendingTransactionsByChainAndAddress db chain norm now ≠ [] →
       removeAddressIfNoActiveTransactions chains ws db now address chain
         = (ws, false)) ∧
    (getPendingTransactionsByChainAndAddress db chain norm now = [] →
       chains.contains chain = true →
       ((removeAddressIfNoActiveTransactions chains ws db now address chain).2
          = (watchedOn ws chain).contains norm ∧
        (watchedOn
            (removeAddressIfNoActiveTransactions chains ws db now address chain).1
            chain).contains norm = false)) := by
  refine ⟨?_, ?_, ?_⟩
  · intro dbx nowx chainx log out h
    rcases processTokenTransfer_shape h with ⟨hout, _⟩ | ⟨t, _, _, hrem, _, _⟩
    · rw [hout]
    · exact hrem
  · intro hne
    unfold removeAddressIfNoActiveTransactions
    simp only [hv]
    rw [if_neg (by simpa [List.isEmpty_iff] using hne)]
  · intro hemp hchain
    unfold removeAddressIfNoActiveTransactions
    simp only [hv]
    rw [if_pos (by simpa [List.isEmpty_iff] using hemp),
      removeAddress_spec chains ws norm chain
        (validateAndNormalizeAddress_idem hv) hchain]
    exact ⟨rfl, by rw [watchedOn_remove]; exact contains_filter_ne _ _⟩

/-- C7 witness: with a sibling pending order the address stays watched
and the call returns false; with none pending the address is removed. -/
theorem removeIfNoActive_spec_witness :
    (removeAddressIfNoActiveTransactions chainsA wsA [oOld] 500 addrAUpper "sepolia"
       = (wsA, false)) ∧
    ((removeAddressIfNoActiveTransactions chainsA wsA [] 500 addrAUpper "sepolia").2
       = (watchedOn wsA "sepolia").contains addrA ∧
     (watchedOn
         (removeAddressIfNoActiveTransactions chainsA wsA [] 500 addrAUpper "sepolia").1
         "sepolia").contains addrA = false) :=
  ⟨(removeIfNoActive_spec chainsA wsA [oOld] 500 addrAUpper "sepolia" addrA
      (by decide)).2.1 (by decide),
   (removeIfNoActive_spec chainsA wsA [] 500 addrAUpper "sepolia" addrA
      (by decide)).2.2 (by decide) (by decide)⟩

/-- A keyed queue update moves through `find?` when the update preserves
ids. -/
theorem find?_updateQueueEntry (q : List QueueEntry) (id : Nat)
    (f : QueueEntry → QueueEntry) (hf : ∀ x, (f x).id = x.id) :
    (updateQueueEntry q id f).find? (fun x => x.id == id)
      = (q.find? (fun x => x.id == id)).map f := by
  induction q with
  | nil => rfl
  | cons e rest ih =>
    show List.find? _ (List.map _ (e :: rest)) = _
    rw [List.map_cons]
    by_cases hc : (e.id == id) = true
    · rw [if_pos hc,
        @List.find?_cons_of_pos _ (fun x => x.id == id) (f e)
          (List.map (fun x => if x.id == id then f x else x) rest)
          (by simpa [hf e] using hc),
        @List.find?_cons_of_pos _ (fun x => x.id == id) e rest hc]
      rfl
    · rw [if_neg hc,
        @List.find?_cons_of_neg _ (fun x => x.id == id) e
          (List.map (fun x => if x.id == id then f x else x) rest) hc,
        @List.find?_cons_of_neg _ (fun x => x.id == id) e rest hc]
      exact ih

/-- C5: counterexample — an entry on its last attempt (`retryCount = 2`,
`maxRetries = 3`) that fails is marked FAILED with its stored
`retryCount` left at 2: the increment is never persisted in the
terminal branch (the claim requires it incremented on every failing
attempt). -/
theorem sweep_failure_does_not_persist_increment :
    qeLastTry.retryCount = 2 ∧ qeLastTry.maxRetries = 3 ∧
    ((handleTransferFailureById [qeLastTry] [] 6 "boom" 77).1.map
      (fun e => (e.status, e.retryCount))) = [("FAILED", 2)] := by
  decide

/-- C5 (amended): on a failing attempt, if the incremented retry count
is still below `maxRetries` the entry reverts to PENDING with the
incremented count and the error stored, and a retry is scheduled after
`2^(retryCount+1)` seconds; otherwise the entry is marked FAILED with
its stored `retryCount` unchanged, the owning order's
`internalTransferStatus` becomes `internal_supply_failed`, and no retry
is scheduled. A manual retry succeeds only on a FAILED entry and resets
its `retryCount` to 0, re-entering the PENDING/PROCESSING cycle. -/
theorem sweep_failure_and_retry_spec (q : List QueueEntry) (db : List Order)
    (queueId : Nat) (err : String) (now : Nat) (e : QueueEntry)
    (hfind : q.find? (fun x => x.id == queueId) = some e) :
    (e.retryCount + 1 < e.maxRetries →
      (handleTransferFailureById q db queueId err now).2.2
        = some (2 ^ (e.retryCount + 1) * 1000) ∧
      (handleTransferFailureById q db queueId err now).2.1 = db ∧
      (handleTransferFailureById q db queueId err now).1.find?
          (fun x => x.id == queueId)
        = some { e with status := "PENDING", retryCount := e.retryCount + 1,
                        errorMessage := some err, updatedAt := now }) ∧
    (¬ e.retryCount + 1 < e.maxRetries →
      (handleTransferFailureById q db queueId err now).2.2 = none ∧
      (handleTransferFailureById q db queueId err now).1.find?
          (fun x => x.id == queueId)
        = some { e with status := "FAILED", errorMessage := some err,
                        updatedAt := now } ∧
      (∀ o ∈ (handleTransferFailureById q db queueId err now).2.1,
        (o.transactionId = e.transactionId →
          o.internalTransferStatus = some "internal_supply_failed") ∧
        (o.transactionId ≠ e.transactionId → o ∈ db))) ∧
    (e.status = "FAILED" →
      (retryTransfer q queueId now).2 = (true, true) ∧
      (retryTransfer q queueId now).1.find? (fun x => x.id == queueId)
        = some { e with status := "PENDING", retryCount := 0,
                        errorMessage := none, updatedAt := now }) ∧
    (e.status ≠ "FAILED" → retryTransfer q queueId now = (q, false, false)) := by
  refine ⟨?_, ?_, ?_, ?_⟩
  · intro hlt
    unfold handleTransferFailureById
    simp only [hfind]
    rw [if_pos hlt]
    refine ⟨rfl, rfl, ?_⟩
    rw [@find?_updateQueueEntry q queueId
        (fun x => { x with status := "PENDING", retryCount := e.retryCount + 1,
                           errorMessage := some err, updatedAt := now })
        (fun x => rfl), hfind]
    rfl
  · intro hge
    unfold handleTransferFailureById
    simp only [hfind]
    rw [if_neg hge]
    refine ⟨rfl, ?_, ?_⟩
    · rw [@find?_updateQueueEntry q queueId
          (fun x => { x with status := "FAILED", errorMessage := some err,
                             updatedAt := now })
          (fun x => rfl), hfind]
      rfl
    · intro o ho
      rcases List.mem_map.mp ho with ⟨o0, ho0, rfl⟩
      by_cases hc : (o0.transactionId == e.transactionId) = true
      · rw [if_pos hc]
        refine ⟨fun _ => rfl, fun hne => ?_⟩
        exact absurd (show (sweepFailedOrderRow o0 e.maxRetries err now).transactionId
            = e.transactionId from by simpa using hc) hne
      · rw [if_neg hc]
        exact ⟨fun heq => absurd heq (by simpa using hc), fun _ => ho0⟩
  · intro hs
    unfold retryTransfer
    simp only [hfind]
    rw [if_pos (by simpa using hs)]
    refine ⟨rfl, ?_⟩
    rw [@find?_updateQueueEntry q queueId
        (fun x => { x with status := "PENDING", retryCount := 0,
                           errorMessage := none, updatedAt := now })
        (fun x => rfl), hfind]
    rfl
  · intro hs
    unfold retryTransfer
    simp only [hfind]
    rw [if_neg (by simpa using hs)]

/-- C5 witness: the terminal branch on the last-attempt entry (owning
order marked `internal_supply_failed`, nothing scheduled), and a manual
retry on a FAILED entry resetting `retryCount` to 0. -/
theorem sweep_failure_and_retry_spec_witness :
    ((handleTransferFailureById [qeLastTry] [oWithHash] 6 "boom" 77).2.2 = none ∧
     (handleTransferFailureById [qeLastTry] [oWithHash] 6 "boom" 77).1.find?
        (fun x => x.id == 6)
       = some { qeLastTry with status := "FAILED", errorMessage := some "boom",
                               updatedAt := 77 } ∧
     (sweepFailedOrderRow oWithHash 3 "boom" 77).internalTransferStatus
       = some "internal_supply_failed") ∧
    ((retryTransfer [qeFailed] 8 50).2 = (true, true) ∧
     (retryTransfer [qeFailed] 8 50).1.find? (fun x => x.id == 8)
       = some { qeFailed with status := "PENDING", retryCount := 0,
                              errorMessage := none, updatedAt := 50 }) ∧
    retryTransfer [qeBase] 5 50 = ([qeBase], false, false) := by
  have h1 := (sweep_failure_and_retry_spec [qeLastTry] [oWithHash] 6 "boom" 77
    qeLastTry (by decide)).2.1 (by decide)
  have h2 := (sweep_failure_and_retry_spec [qeFailed] [] 8 "x" 50 qeFailed
    (by decide)).2.2.1 (by decide)
  have h3 := (sweep_failure_and_retry_spec [qeBase] [] 5 "x" 50 qeBase
    (by decide)).2.2.2 (by decide)
  exact ⟨⟨h1.1, h1.2.1,
      ((h1.2.2 (sweepFailedOrderRow oWithHash 3 "boom" 77) (by decide)).1
        (by decide))⟩,
    h2, h3⟩

/-- The `crypto_confirmed` row update always stores the passed hash,
whatever the transaction type derives for the overall status. -/
theorem cryptoStatusRow_confirmed_hash (o : Order) (h : String) (now : Nat) :
    (cryptoStatusRow o "crypto_confirmed" (some h) now).sourceTransactionHash
      = some h := by
  unfold cryptoStatusRow
  rw [if_pos (by decide)]
  dsimp only
  split <;> rfl

/-- C9: counterexample — an order whose `sourceTransactionHash` records
the matched deposit has it overwritten with the sweep transaction's
hash when the sweep queue entry completes. -/
theorem sweep_completion_overwrites_hash :
    oWithHash.sourceTransactionHash = some "0xdeposithash" ∧
    ((processQueuedTransferById [qeBase] [oWithHash] 5 sweepOk 900).2.1.map
      Order.sourceTransactionHash) = [some "0xsweephash"] := by
  decide

/-- C9 (amended): `sourceTransactionHash` is not immutable once set —
sweep-queue completion overwrites the owning order's hash with the
sweep transfer's own hash, and any later `crypto_confirmed` status
update carrying a hash overwrites it as well. -/
theorem sourceTxHash_overwritten (q : List QueueEntry) (db : List Order)
    (queueId : Nat) (res : SweepResult) (now : Nat) (e : QueueEntry) (hsh : String)
    (hfind : q.find? (fun x => x.id == queueId) = some e)
    (hchain : e.sourceChain.isSome = true) (hcur : e.sourceCurrency.isSome = true)
    (hs : res.success = true) (hh : res.txHash = some hsh) :
    (∀ o ∈ (processQueuedTransferById q db queueId res now).2.1,
      (o.transactionId = e.transactionId →
        o.sourceTransactionHash = some hsh ∧
        o.internalTransferStatus = some "internal_supply_completed") ∧
      (o.transactionId ≠ e.transactionId → o ∈ db)) ∧
    (∀ (db2 : List Order) (id : Nat) (hsh2 : String) (now2 : Nat),
      ∀ o ∈ (updateCryptoStatus db2 id "crypto_confirmed" (some hsh2) now2).1,
        (o.id = id → o.sourceTransactionHash = some hsh2) ∧
        (o.id ≠ id → o ∈ db2)) := by
  constructor
  · intro o ho
    unfold processQueuedTransferById at ho
    rw [hfind] at ho
    simp only at ho
    rw [if_pos (by simp [hchain, hcur]), if_pos hs] at ho
    rcases List.mem_map.mp ho with ⟨o0, ho0, rfl⟩
    by_cases hc : (o0.transactionId == e.transactionId) = true
    · rw [if_pos hc]
      refine ⟨fun _ => ⟨?_, rfl⟩, fun hne => absurd (by simpa using hc) hne⟩
      simp only [sweepSuccessOrderRow, hh]
    · rw [if_neg hc]
      exact ⟨fun heq => absurd heq (by simpa using hc), fun _ => ho0⟩
  · intro db2 id hsh2 now2 o ho
    unfold updateCryptoStatus at ho
    rcases List.mem_map.mp ho with ⟨o0, ho0, rfl⟩
    by_cases hc : (o0.id == id) = true
    · rw [if_pos hc]
      refine ⟨fun _ => cryptoStatusRow_confirmed_hash o0 hsh2 now2, ?_⟩
      intro hne
      exact absurd (by
        have : (cryptoStatusRow o0 "crypto_confirmed" (some hsh2) now2).id = o0.id := by
          unfold cryptoStatusRow
          rw [if_pos (by decide)]
          dsimp only
          split <;> rfl
        rw [this]
        simpa using hc) hne
    · rw [if_neg hc]
      exact ⟨fun heq => absurd heq (by simpa using hc), fun _ => ho0⟩

/-- C9 witness: the overwrite evaluated on the concrete store — the
updated row carries the sweep hash, not the deposit hash. -/
theorem sourceTxHash_overwritten_witness :
    (sweepSuccessOrderRow oWithHash sweepOk 900).sourceTransactionHash
      = some "0xsweephash" ∧
    (sweepSuccessOrderRow oWithHash sweepOk 900).internalTransferStatus
      = some "internal_supply_completed" :=
  ((sourceTxHash_overwritten [qeBase] [oWithHash] 5 sweepOk 900 qeBase
      "0xsweephash" (by decide) (by decide) (by decide) (by decide) (by decide)).1
    (sweepSuccessOrderRow oWithHash sweepOk 900) (by decide)).1 (by decide)

/-- C4: counterexample — a matched order whose destination address is
missing (destination chain `ethereum`, not fiat) is claimed to end with
`token_from_vault_transfer_failed`/`failed`; the code instead returns
the error "Destination address is missing" and leaves the order store
completely unchanged (the order keeps status `processing`). -/
theorem missing_destination_changes_nothing :
    oNoDest.destinationAddress = none ∧
    oNoDest.destinationChain = some "ethereum" ∧
    oNoDest.status = "processing" ∧
    (processConfirmedEvmTransaction [oNoDest] [] "TXN6" true "" true 50 999).db
      = [oNoDest] ∧
    (processConfirmedEvmTransaction [oNoDest] [] "TXN6" true "" true 50 999).success
      = false ∧
    (processConfirmedEvmTransaction [oNoDest] [] "TXN6" true "" true 50 999).error
      = some "Destination address is missing" := by
  decide

/-- C4 (amended): the destination-leg dispatch recognizes no destination
chain (the switch has only a default arm), so the transfer never
succeeds; a call whose destination data is present ends with
cryptoStatus `token_from_vault_transfer_failed` and overall status
`failed`; a call with the destination address missing (non-fiat
destination chain) returns an error without touching the order; and the
completion update — reachable only on a successful transfer — would set
overall status and cryptoStatus to `completed` and stamp `completedAt`
and `destinationTransactionHash`, but leaves `internalTransferStatus`
unchanged. -/
theorem destination_leg_outcomes (db : List Order) (q : List QueueEntry)
    (tid sa sc berr : String) (t : Order) (queueOk : Bool) (nid now : Nat)
    (htid : (tid == "") = false)
    (hfind : db.find? (fun o => o.transactionId == tid) = some t)
    (haddr : t.sourceAddress = some sa) (hchain : t.sourceChain = some sc)
    (hcur : (t.sourceCurrency == "") = false) :
    (∀ o : Order, (executeDestinationTransfer o).success = false) ∧
    (t.destinationAddress = none → t.destinationChain ≠ some "fiat" →
      (processConfirmedEvmTransaction db q tid true berr queueOk nid now).db = db ∧
      (processConfirmedEvmTransaction db q tid true berr queueOk nid now).success
        = false ∧
      (processConfirmedEvmTransaction db q tid true berr queueOk nid now).error
        = some "Destination address is missing") ∧
    ((t.destinationAddress.isSome = true ∨ t.destinationChain = some "fiat") →
      (processConfirmedEvmTransaction db q tid true berr queueOk nid now).success
        = false ∧
      ∀ o ∈ (processConfirmedEvmTransaction db q tid true berr queueOk nid now).db,
        (o.id = t.id →
          o.cryptoStatus = some "token_from_vault_transfer_failed" ∧
          o.status = "failed") ∧
        (o.id ≠ t.id → o ∈ db)) ∧
    (∀ (o : Order) (hsh : Option String) (n2 : Nat),
      (completionRow o hsh n2).internalTransferStatus = o.internalTransferStatus ∧
      (completionRow o hsh n2).status = "completed" ∧
      (completionRow o hsh n2).cryptoStatus = some "completed" ∧
      (completionRow o hsh n2).completedAt = some n2) := by
  have hexec : ∀ o : Order, (executeDestinationTransfer o).success = false :=
    fun o => rfl
  have htid2 : ¬ ((tid == "") = true) := by
    rw [htid]
    exact Bool.false_ne_true
  have hcur2 : ¬ ((t.sourceCurrency == "") = true) := by
    rw [hcur]
    exact Bool.false_ne_true
  refine ⟨hexec, ?_, ?_, fun o hsh n2 => ⟨rfl, rfl, rfl, rfl⟩⟩
  · intro hda hdc
    have hmiss : (t.destinationAddress.isNone
        && !(t.destinationChain == some "fiat")) = true := by
      rw [hda]
      simp [hdc]
    unfold processConfirmedEvmTransaction
    rw [if_neg htid2]
    simp only [hfind, haddr, hchain]
    rw [if_neg hcur2, if_pos hmiss]
    exact ⟨rfl, rfl, rfl⟩
  · intro hpresent
    have hnom : (t.destinationAddress.isNone
        && !(t.destinationChain == some "fiat")) = false := by
      rcases hpresent with hda | hdc
      · cases hopt : t.destinationAddress with
        | none => rw [hopt] at hda; cases hda
        | some v => simp [hopt]
      · simp [hdc]
    have hnom2 : ¬ ((t.destinationAddress.isNone
        && !(t.destinationChain == some "fiat")) = true) := by
      rw [hnom]
      exact Bool.false_ne_true
    have hds : ¬ ((executeDestinationTransfer t).success = true) := by
      rw [hexec t]
      exact Bool.false_ne_true
    unfold processConfirmedEvmTransaction
    rw [if_neg htid2]
    simp only [hfind, haddr, hchain]
    rw [if_neg hcur2, if_neg hnom2, if_neg hds]
    refine ⟨rfl, ?_⟩
    intro o ho
    rcases List.mem_map.mp ho with ⟨o0, ho0, rfl⟩
    by_cases hc : (o0.id == t.id) = true
    · rw [if_pos hc]
      exact ⟨fun _ => ⟨rfl, rfl⟩, fun hne => absurd (by simpa using hc) hne⟩
    · rw [if_neg hc]
      exact ⟨fun heq => absurd heq (by simpa using hc), fun _ => ho0⟩

/-- C4 witness: the terminal-failure path on a concrete order with full
destination data — the updated row is failed, and the (unreachable)
completion row on the same order would leave `internalTransferStatus`
untouched. -/
theorem destination_leg_outcomes_witness :
    ((processConfirmedEvmTransaction [oWithHash] [] "TXN9" true "" true 50 999).success
       = false ∧
     (destFailureRow oWithHash "ethereum transfer"
         "Destination chain does not exist" 999).cryptoStatus
       = some "token_from_vault_transfer_failed" ∧
     (destFailureRow oWithHash "ethereum transfer"
         "Destination chain does not exist" 999).status = "failed") ∧
    ((completionRow oWithHash (some "0xdest") 999).internalTransferStatus
       = oWithHash.internalTransferStatus ∧
     (completionRow oWithHash (some "0xdest") 999).status = "completed") := by
  have h := destination_leg_outcomes [oWithHash] [] "TXN9" addrA "sepolia" ""
    oWithHash true 50 999 (by decide) (by decide) (by decide) (by decide)
    (by decide)
  have h3 := h.2.2.1 (Or.inl (by decide))
  have h4 := (h.2.2.1 (Or.inl (by decide))).2
    (destFailureRow oWithHash "ethereum transfer"
      "Destination chain does not exist" 999) (by decide)
  have h5 := h.2.2.2 oWithHash (some "0xdest") 999
  exact ⟨⟨h3.1, (h4.1 (by decide)).1, (h4.1 (by decide)).2⟩, ⟨h5.1, h5.2.1⟩⟩

/-- C8 witness: a concrete successful cycle from cursor 5 to returned
cursor 9, and a failed cycle keeping cursor 5. -/
theorem scanChain_cursor_monotone_witness :
    (scanChain ⟨[], []⟩ "sepolia" 500 [addrA] 5 (Except.error ())).2 = 5 ∧
    5 ≤ (scanChain ⟨[], []⟩ "sepolia" 500 [addrA] 5
          (Except.ok ⟨9, ⟨[], []⟩⟩)).2 ∧
    (scanChain ⟨[], []⟩ "sepolia" 500 [addrA] 5
        (Except.ok ⟨9, ⟨[], []⟩⟩)).2 = 9 :=
  have h := scanChain_cursor_monotone ⟨[], []⟩ "sepolia" 500 [addrA] 5
    ⟨9, ⟨[], []⟩⟩ (by decide)
  ⟨h.1, h.2.1, h.2.2 (by decide) (by decide) (by decide)⟩

end Wiseramp
